import Mathlib

/-!
# read-bad-flash: the chunked resilient-copy loop

A shallow embedding of `src/read-bad-flash.c` (`main`) and the properties of it
that the specification states.

Modelling decisions.

* The outside world is an `Env`: the content of the input file, and what every
  library call answers (whether an `fopen` succeeds, whether a read hits a
  device error, whether an `fwrite` succeeds, whether `malloc` succeeds).  The
  answers are indexed by the number of the loop iteration that makes the call,
  so any sequence of outcomes can be described.
* `PATH_MAX` and `strtoull` come from the C library, not from the repository;
  they are fields of `Env`.
* The platform is the one the tool is written for (POSIX, `size_t` and `long`
  of 64 bits).  The offset `i * chunk + start` of line 124 is computed in
  `size_t`, that is modulo `2 ^ 64`, and handed to `fseek`, which takes a
  `long`: an offset above `LONG_MAX` arrives as a negative number, the call
  fails, and since its result is not looked at the freshly opened handle stays
  at byte 0.  The cursor `i` itself counts the chunks written and is a natural
  number.
* The narration printed with `fprintf` is not modelled, except the recovery
  prompt; every file operation and every read of the operator's input is
  recorded, in order, in `State.log`.
* The loop has no bound of its own (a device that fails for ever, answered by
  zero-filling for ever, never stops), so `mainLoop` takes fuel: `none` means
  that the fuel ran out before the loop was left.
-/

namespace ReadBadFlash

/-- A byte of file content. -/
abbrev Byte := Nat

/-! ## Constants of the source -/

def ARGS_MIN : Nat := 3
def USER_INPUT_MAX : Nat := 16
def CHUNK_SIZE_DEFAULT : Nat := 1000000

def ARG_SELF : Nat := 0
def ARG_FILE_INPUT : Nat := 1
def ARG_FILE_OUTPUT : Nat := 2
def ARG_CHUNK_SIZE : Nat := 3
def ARG_START_OFFSET : Nat := 4
def ARG_END_OFFSET : Nat := 5

def EXIT_SUCCESS : Nat := 0
def EXIT_FAILURE : Nat := 1

/-- The largest value of a `size_t` (64 bits). -/
def SIZE_MAX : Nat := 2 ^ 64 - 1

/-- The largest value of a `long` (64 bits). -/
def LONG_MAX : Nat := 2 ^ 63 - 1

/-! ## The outside world -/

/-- The platform and the outside world of one run. -/
structure Env where
  /-- The constant of `limits.h`. -/
  PATH_MAX : Nat
  /-- The function `strtoull(s, NULL, 10)` of the C library. -/
  strtoull : String → Nat
  /-- Whether `malloc(chunk)` returns a buffer. -/
  mallocOk : Bool
  /-- Content of the input file. -/
  src : List Byte
  /-- Content of the output path before the run. -/
  dst0 : List Byte
  /-- Whether `fopen(in, "rb")` succeeds when called in iteration `t`. -/
  openIn : Nat → Bool
  /-- Whether `fopen(out, "wb")` succeeds when called in iteration `t`. -/
  openOut : Nat → Bool
  /-- Whether the `fread` of iteration `t`, issued at byte position `pos`,
  hits a device error. -/
  readErr : Nat → Nat → Bool
  /-- Whether the `fwrite` of iteration `t` succeeds. -/
  writeOk : Nat → Bool

/-- One recorded operation. -/
inductive Event where
  | fopenIn (ok : Bool)
  /-- The call `fseek(fi, off, SEEK_SET)`, with the offset as computed in
  `size_t`. -/
  | fseek (off : Nat)
  | fopenOut (ok : Bool)
  | fread (pos : Nat) (rs : Nat)
  | fwrite (data : List Byte) (ok : Bool)
  | prompt
  | fgets (line : Option (List Char))
  | fcloseIn
  | fcloseOut
  deriving DecidableEq, Repr

/-- The variables of `main` that live across loop iterations, with the files
they refer to.  `fi = some pos` is an open input handle whose read position is
`pos`; `fi = none` is no open handle.  `fo` tells whether the output handle is
open; `dst` is the content of the output file. -/
structure State where
  fi : Option Nat
  fo : Bool
  i : Nat
  is_always_z : Bool
  stdin : List Char
  dst : List Byte
  log : List Event
  t : Nat
  deriving DecidableEq, Repr

/-- The statement through which `main` is left. -/
inductive Exit where
  /-- Line 57: `argc < ARGS_MIN`. -/
  | usage
  /-- Line 66: `<out-file> is too long`. -/
  | pathTooLong
  /-- Line 73: `[chunk-size] can not be zero`. -/
  | zeroChunk
  /-- Line 93: `nothing to do`. -/
  | nothingToDo
  /-- Line 101: `can not allocate memory`. -/
  | noMemory
  /-- Line 122: `can not open the input file`. -/
  | inputOpenError
  /-- Line 134: `can not create an output file`. -/
  | outputOpenError
  /-- Lines 157 and 207: `write error`, then `break`. -/
  | writeError
  /-- Line 175: `finished`, then `break`. -/
  | finished
  /-- Line 191: `can not read user input`, then `break`. -/
  | noUserInput
  deriving DecidableEq, Repr

/-- How one pass through the loop body ends. -/
inductive Step where
  /-- The statement `continue`. -/
  | next (s : State)
  /-- The statement `break`. -/
  | brk (why : Exit) (s : State)
  /-- The statement `return code`. -/
  | ret (code : Nat) (why : Exit) (s : State)
  deriving DecidableEq, Repr

/-- What `main` returns, and the state it leaves. -/
structure Result where
  status : Nat
  why : Exit
  st : State
  deriving DecidableEq, Repr

/-! ## Library calls -/

/-- The function `strlen`: the number of bytes of the string. -/
def strlen (s : String) : Nat := s.utf8ByteSize

/-- The characters `fgets` stores when it may store `n` of them: it stops
after a newline, at the end of the input, or when `n` characters are stored. -/
def fgetsChars : Nat → List Char → List Char × List Char
  | 0, cs => ([], cs)
  | _ + 1, [] => ([], [])
  | n + 1, c :: cs =>
    if c = Char.ofNat 10 then ([c], cs)
    else ((c :: (fgetsChars n cs).1), (fgetsChars n cs).2)

/-- The call `fgets(user_input, size, stdin)`: `none` is the `NULL` returned at
the end of the input, otherwise the characters stored and the rest of the
input. -/
def fgets (size : Nat) (stdin : List Char) : Option (List Char × List Char) :=
  match stdin with
  | [] => none
  | _ :: _ => some (fgetsChars (size - 1) stdin)

/-- What one `fread(buf, 1, chunk, fi)` gives. -/
structure ReadResult where
  /-- The return value. -/
  rs : Nat
  /-- The value of `feof(fi)` after the call. -/
  eof : Bool
  /-- The bytes stored in `buf`. -/
  buf : List Byte
  deriving DecidableEq, Repr

/-- The call `fread(buf, 1, chunk, fi)` of iteration `t` at position `pos`.  A
device error delivers no byte and does not set the end-of-file indicator;
otherwise the bytes up to the end of the file are delivered, and the
indicator is set when they are fewer than `chunk`. -/
def fread (env : Env) (t pos chunk : Nat) : ReadResult :=
  if env.readErr t pos then
    { rs := 0, eof := false, buf := [] }
  else
    { rs := ((env.src.drop pos).take chunk).length
      eof := decide (((env.src.drop pos).take chunk).length < chunk)
      buf := (env.src.drop pos).take chunk }

/-- The argument `i * chunk + start` of the `fseek` of line 124, computed in
`size_t`. -/
def seekOffset (chunk start i : Nat) : Nat := (i * chunk + start) % (SIZE_MAX + 1)

/-- The position of a freshly opened handle after `fseek(fi, off, SEEK_SET)`:
the offset arrives as a `long`; above `LONG_MAX` it is negative there, the call
fails and the handle stays at byte 0. -/
def fseekSet (off : Nat) : Nat := if off ≤ LONG_MAX then off else 0

/-! ## The loop body -/

/-- Lines 114-125: open the input file and seek, when it is not open.  Gives
the read position of the handle. -/
def openInput (env : Env) (chunk start : Nat) (s : State) : Step ⊕ (Nat × State) :=
  match s.fi with
  | some pos => .inr (pos, s)
  | none =>
    if env.openIn s.t then
      .inr (fseekSet (seekOffset chunk start s.i),
        { s with fi := some (fseekSet (seekOffset chunk start s.i))
                 log := s.log ++ [.fopenIn true, .fseek (seekOffset chunk start s.i)] })
    else
      .inl (.ret EXIT_FAILURE .inputOpenError
        { s with fo := false
                 log := s.log ++ .fopenIn false :: (if s.fo then [.fcloseOut] else []) })

/-- Lines 128-136: create the output file, when it is not open. -/
def openOutput (env : Env) (s : State) : Step ⊕ State :=
  if s.fo then .inr s
  else if env.openOut s.t then
    .inr { s with fo := true, dst := [], log := s.log ++ [.fopenOut true] }
  else
    .inl (.ret EXIT_FAILURE .outputOpenError
      { s with fi := none, log := s.log ++ [.fopenOut false, .fcloseIn] })

/-- Lines 202-210 and 216-219: write a chunk of zeros; go to the next chunk,
closing the input file, when the write succeeds. -/
def zeroFill (env : Env) (chunk : Nat) (s : State) : Step :=
  if env.writeOk s.t then
    .next { s with dst := s.dst ++ List.replicate chunk 0
                   i := s.i + 1
                   fi := none
                   t := s.t + 1
                   log := s.log ++ [.fwrite (List.replicate chunk 0) true, .fcloseIn] }
  else
    .brk .writeError
      { s with fi := none, fo := false
               log := s.log ++ [.fwrite (List.replicate chunk 0) false, .fcloseOut, .fcloseIn] }

/-- Lines 212 and 216-219: retry; the input file is closed to be reopened. -/
def retry (s : State) : Step :=
  .next { s with fi := none, t := s.t + 1, log := s.log ++ [.fcloseIn] }

/-- Lines 182-197: ask the operator unless zero-filling is permanent.  Gives
`user_input` (empty when nothing was asked) and the state, or the `break` of
line 191. -/
def askUser (s : State) : Step ⊕ (List Char × State) :=
  if s.is_always_z then .inr ([], s)
  else
    match fgets USER_INPUT_MAX s.stdin with
    | none =>
      .inl (.brk .noUserInput
        { s with fo := false, log := s.log ++ [.prompt, .fgets none, .fcloseOut] })
    | some (user_input, rest) =>
      .inr (user_input,
        { s with stdin := rest
                 log := s.log ++ [.prompt, .fgets (some user_input)]
                 is_always_z :=
                   decide (user_input.headD (Char.ofNat 0) = 'Z' ∨
                           user_input.headD (Char.ofNat 0) = 'z') })

/-- Lines 177-220: the read-error branch. -/
def recover (env : Env) (chunk : Nat) (s : State) : Step :=
  match askUser s with
  | .inl out => out
  | .inr (user_input, s1) =>
    if s1.is_always_z ∨ user_input.headD (Char.ofNat 0) = 'N' ∨
        user_input.headD (Char.ofNat 0) = 'n' then
      zeroFill env chunk s1
    else
      retry s1

/-- Lines 150-162: a full chunk was read. -/
def fullRead (env : Env) (buf : List Byte) (s : State) : Step :=
  if env.writeOk s.t then
    .next { s with dst := s.dst ++ buf, i := s.i + 1, t := s.t + 1
                   log := s.log ++ [.fwrite buf true] }
  else
    .brk .writeError
      { s with fi := none, fo := false
               log := s.log ++ [.fwrite buf false, .fcloseOut, .fcloseIn] }

/-- Lines 163-175: the end of the input file was reached. -/
def endOfFile (env : Env) (r : ReadResult) (s : State) : Step :=
  if r.rs ≠ 0 then
    if env.writeOk s.t then
      .brk .finished
        { s with dst := s.dst ++ r.buf, fi := none, fo := false
                 log := s.log ++ [.fwrite r.buf true, .fcloseOut, .fcloseIn] }
    else
      .brk .finished
        { s with fi := none, fo := false
                 log := s.log ++ [.fwrite r.buf false, .fcloseOut, .fcloseIn] }
  else
    .brk .finished
      { s with fi := none, fo := false, log := s.log ++ [.fcloseOut, .fcloseIn] }

/-- Lines 138-220: read a chunk at position `pos` and act on the outcome. -/
def readChunk (env : Env) (chunk pos : Nat) (s : State) : Step :=
  if (fread env s.t pos chunk).rs = chunk then
    fullRead env (fread env s.t pos chunk).buf
      { s with fi := some (pos + (fread env s.t pos chunk).rs)
               log := s.log ++ [.fread pos (fread env s.t pos chunk).rs] }
  else if (fread env s.t pos chunk).eof then
    endOfFile env (fread env s.t pos chunk)
      { s with fi := some (pos + (fread env s.t pos chunk).rs)
               log := s.log ++ [.fread pos (fread env s.t pos chunk).rs] }
  else
    recover env chunk
      { s with fi := some (pos + (fread env s.t pos chunk).rs)
               log := s.log ++ [.fread pos (fread env s.t pos chunk).rs] }

/-- Lines 106-221: one pass through the body of the main loop. -/
def body (env : Env) (chunk start : Nat) (s : State) : Step :=
  match openInput env chunk start s with
  | .inl out => out
  | .inr (pos, s1) =>
    match openOutput env s1 with
    | .inl out => out
    | .inr s2 => readChunk env chunk pos s2

/-- Lines 106-225: the main loop and the statements after it.  A `break`
reaches `return EXIT_SUCCESS` of line 225. -/
def mainLoop (env : Env) (chunk start : Nat) : Nat → State → Option Result
  | 0, _ => none
  | fuel + 1, s =>
    match body env chunk start s with
    | .next s1 => mainLoop env chunk start fuel s1
    | .brk why s1 => some { status := EXIT_SUCCESS, why := why, st := s1 }
    | .ret code why s1 => some { status := code, why := why, st := s1 }

/-- The state in which `main` starts: no file is open, `is_always_z` is
`false`, `i` is `0`. -/
def State.init (env : Env) (stdin : List Char) : State :=
  { fi := none, fo := false, i := 0, is_always_z := false
    stdin := stdin, dst := env.dst0, log := [], t := 0 }

/-- Lines 69-77. -/
def argChunk (env : Env) (argv : List String) : Nat :=
  if argv.length > ARG_CHUNK_SIZE then env.strtoull (argv.getD ARG_CHUNK_SIZE "")
  else CHUNK_SIZE_DEFAULT

/-- Lines 79-83. -/
def argStart (env : Env) (argv : List String) : Nat :=
  if argv.length > ARG_START_OFFSET then env.strtoull (argv.getD ARG_START_OFFSET "")
  else 0

/-- Lines 85-89. -/
def argEnd (env : Env) (argv : List String) : Nat :=
  if argv.length > ARG_END_OFFSET then env.strtoull (argv.getD ARG_END_OFFSET "")
  else 0

/-- The function `main`; `argc` is the length of `argv`. -/
def main (env : Env) (argv : List String) (stdin : List Char) (fuel : Nat) : Option Result :=
  if argv.length < ARGS_MIN then
    some { status := EXIT_SUCCESS, why := .usage, st := State.init env stdin }
  else if strlen (argv.getD ARG_FILE_OUTPUT "") > env.PATH_MAX then
    some { status := EXIT_FAILURE, why := .pathTooLong, st := State.init env stdin }
  else if argv.length > ARG_CHUNK_SIZE ∧ argChunk env argv = 0 then
    some { status := EXIT_FAILURE, why := .zeroChunk, st := State.init env stdin }
  else if argEnd env argv ≠ 0 ∧ argStart env argv ≥ argEnd env argv then
    some { status := EXIT_SUCCESS, why := .nothingToDo, st := State.init env stdin }
  else if !env.mallocOk then
    some { status := EXIT_FAILURE, why := .noMemory, st := State.init env stdin }
  else
    mainLoop env (argChunk env argv) (argStart env argv) fuel (State.init env stdin)

/-- The state at the entry of iteration `n` of the loop, when the loop is
still running then. -/
def stateAt (env : Env) (chunk start : Nat) : Nat → State → Option State
  | 0, s => some s
  | n + 1, s =>
    match body env chunk start s with
    | .next s1 => stateAt env chunk start n s1
    | _ => none

/-- The state a step leaves. -/
def Step.state : Step → State
  | .next s => s
  | .brk _ s => s
  | .ret _ _ s => s

/-- The invariant of the loop at the entry of an iteration: an open input
handle is positioned at byte `i * chunk + start`, when that offset is in the
range of `long`; an open output file holds `i * chunk` bytes; and while the
output file is not open yet `i` is `0`. -/
def Inv (chunk start : Nat) (s : State) : Prop :=
  (∀ pos, s.fi = some pos → s.i * chunk + start ≤ LONG_MAX →
    pos = s.i * chunk + start) ∧
  (if s.fo then s.dst.length = s.i * chunk else s.i = 0)

/-- Nothing was asked of the operator between `s` and `s'`. -/
def Quiet (s s' : State) : Prop :=
  s'.stdin = s.stdin ∧ s'.is_always_z = s.is_always_z ∧
    (Event.prompt ∈ s'.log → Event.prompt ∈ s.log)

/-- Decimal digits at the head of a character list, as a number. -/
def digitsValue : Nat → List Char → Nat
  | acc, [] => acc
  | acc, c :: cs =>
    if c.isDigit then digitsValue (acc * 10 + (c.toNat - 48)) cs else acc

/-- A stand-in for `strtoull(s, NULL, 10)` on strings that start with
decimal digits: the value of the leading digits, at most `2 ^ 64 - 1`. -/
def strtoull10 (s : String) : Nat := min (digitsValue 0 s.data) (2 ^ 64 - 1)

/-- A world in which every call succeeds, with input content `src`. -/
def goodEnv (src : List Byte) : Env :=
  { PATH_MAX := 4096, strtoull := strtoull10, mallocOk := true
    src := src, dst0 := [7, 7, 7]
    openIn := fun _ => true, openOut := fun _ => true
    readErr := fun _ _ => false, writeOk := fun _ => true }

/-- The nine bytes `AABBCCDDE` of the example of the specification. -/
def exampleSrc : List Byte := [65, 65, 66, 66, 67, 67, 68, 68, 69]

/-- The world of `goodEnv` in which every read hits a device error. -/
def deadEnv (src : List Byte) : Env :=
  { goodEnv src with readErr := fun _ _ => true }

/-- The world of `goodEnv` in which every write fails. -/
def fullDiskEnv (src : List Byte) : Env :=
  { goodEnv src with writeOk := fun _ => false }

/-- The world of `deadEnv` in which, besides, every write fails. -/
def deadFullEnv (src : List Byte) : Env :=
  { goodEnv src with readErr := fun _ _ => true, writeOk := fun _ => false }

/-- A state in the middle of a run: both files open, the operator's input
being `stdin`. -/
def midState (mode : Bool) (stdin : List Char) : State :=
  { fi := some 0, fo := true, i := 0, is_always_z := mode
    stdin := stdin, dst := [], log := [], t := 0 }

/-! ## Library calls and the two `fopen` steps -/

/-- The return value of `fread` is the number of bytes it stored. -/
theorem fread_buf_length (env : Env) (t pos chunk : Nat) :
    (fread env t pos chunk).buf.length = (fread env t pos chunk).rs := by
  unfold fread
  split <;> rfl

/-- An event recorded after a longer prefix of the log was recorded after a shorter one. -/
theorem mem_drop_of_append {α : Type} (l a l' : List α) (e : α)
    (h : e ∈ l'.drop (l ++ a).length) : e ∈ l'.drop l.length := by
  rw [List.length_append, ← List.drop_drop] at h
  exact List.mem_of_mem_drop h

/-- An offset in the range of `long` is sought as it is. -/
theorem fseekSet_seekOffset (chunk start i : Nat) (h : i * chunk + start ≤ LONG_MAX) :
    fseekSet (seekOffset chunk start i) = i * chunk + start := by
  have hlt : i * chunk + start < SIZE_MAX + 1 :=
    Nat.lt_of_le_of_lt h (by decide)
  unfold fseekSet seekOffset
  rw [Nat.mod_eq_of_lt hlt, if_pos h]

/-- After `openInput` the handle is at byte `i * chunk + start`, when that
offset is in the range of `long`, and nothing else changed. -/
theorem openInput_inr (env : Env) (chunk start : Nat) (s : State) (pos : Nat) (s1 : State)
    (hinv : Inv chunk start s) (h : openInput env chunk start s = .inr (pos, s1)) :
    (s.i * chunk + start ≤ LONG_MAX → pos = s.i * chunk + start) ∧
      s1.fi = some pos ∧ s1.i = s.i ∧ s1.t = s.t ∧
      s1.fo = s.fo ∧ s1.dst = s.dst ∧ s1.is_always_z = s.is_always_z ∧
      s1.stdin = s.stdin ∧ Inv chunk start s1 := by
  unfold openInput at h
  rcases hfi : s.fi with _ | p
  · rw [hfi] at h
    by_cases ho : env.openIn s.t = true
    · simp only [ho, if_true, Sum.inr.injEq, Prod.mk.injEq] at h
      obtain ⟨h1, h2⟩ := h
      subst h2
      subst h1
      refine ⟨fseekSet_seekOffset chunk start s.i, rfl, rfl, rfl, rfl, rfl, rfl, rfl, ?_⟩
      refine ⟨?_, hinv.2⟩
      intro pos hp hr
      simp only [Option.some.injEq] at hp
      rw [← hp]
      exact fseekSet_seekOffset chunk start s.i hr
    · simp [ho] at h
  · rw [hfi] at h
    simp only [Sum.inr.injEq, Prod.mk.injEq] at h
    obtain ⟨h1, h2⟩ := h
    subst h2
    subst h1
    exact ⟨hinv.1 p hfi, hfi, rfl, rfl, rfl, rfl, rfl, rfl, hinv⟩

/-- The only way out of `openInput` is the return at a failed `fopen`. -/
theorem openInput_inl (env : Env) (chunk start : Nat) (s : State) (out : Step)
    (h : openInput env chunk start s = .inl out) :
    ∃ sf, out = .ret EXIT_FAILURE .inputOpenError sf ∧ sf.i = s.i := by
  unfold openInput at h
  rcases hfi : s.fi with _ | p
  · rw [hfi] at h
    by_cases ho : env.openIn s.t = true
    · simp [ho] at h
    · simp only [ho, Bool.false_eq_true, if_false, Sum.inl.injEq] at h
      exact ⟨_, h.symm, rfl⟩
  · rw [hfi] at h
    simp at h

/-- At the return of `openInput` no file is open. -/
theorem openInput_inl_closed (env : Env) (chunk start : Nat) (s : State) (out : Step)
    (h : openInput env chunk start s = .inl out) :
    out.state.fi = none ∧ out.state.fo = false := by
  unfold openInput at h
  rcases hfi : s.fi with _ | p
  · rw [hfi] at h
    by_cases ho : env.openIn s.t = true
    · simp [ho] at h
    · simp only [ho, Bool.false_eq_true, if_false, Sum.inl.injEq] at h
      subst h
      exact ⟨rfl, rfl⟩
  · rw [hfi] at h
    simp at h

/-- The function `openInput` keeps the cursor and the iteration number, and extends the log. -/
theorem openInput_frame (env : Env) (chunk start : Nat) (s : State) (pos : Nat)
    (s1 : State) (h : openInput env chunk start s = .inr (pos, s1)) :
    s1.i = s.i ∧ s1.t = s.t ∧ ∃ a, s1.log = s.log ++ a := by
  unfold openInput at h
  rcases hfi : s.fi with _ | p
  · rw [hfi] at h
    by_cases ho : env.openIn s.t = true
    · simp only [ho, if_true, Sum.inr.injEq, Prod.mk.injEq] at h
      obtain ⟨_, h2⟩ := h
      subst h2
      exact ⟨rfl, rfl, _, rfl⟩
    · simp [ho] at h
  · rw [hfi] at h
    simp only [Sum.inr.injEq, Prod.mk.injEq] at h
    obtain ⟨_, h2⟩ := h
    subst h2
    exact ⟨rfl, rfl, [], by simp⟩

/-- After `openOutput` the output file is open and holds `i * chunk` bytes. -/
theorem openOutput_inr (env : Env) (chunk start : Nat) (s1 s2 : State)
    (hinv : Inv chunk start s1) (h : openOutput env s1 = .inr s2) :
    s2.fo = true ∧ s2.fi = s1.fi ∧ s2.i = s1.i ∧ s2.t = s1.t ∧
      s2.is_always_z = s1.is_always_z ∧ s2.stdin = s1.stdin ∧
      s2.dst.length = s2.i * chunk ∧ Inv chunk start s2 := by
  unfold openOutput at h
  by_cases hfo : s1.fo = true
  · simp only [hfo, if_true, Sum.inr.injEq] at h
    subst h
    have h2 := hinv.2
    simp only [hfo, if_true] at h2
    exact ⟨hfo, rfl, rfl, rfl, rfl, rfl, h2, hinv⟩
  · by_cases ho : env.openOut s1.t = true
    · have hfo1 : s1.fo = false := by simpa using hfo
      simp only [hfo1, Bool.false_eq_true, ho, if_true, if_false, Sum.inr.injEq] at h
      subst h
      have h2 := hinv.2
      simp only [hfo1, Bool.false_eq_true, if_false] at h2
      refine ⟨rfl, rfl, rfl, rfl, rfl, rfl, ?_, hinv.1, ?_⟩
      · simp [h2]
      · simp [h2]
    · simp [hfo, ho] at h

/-- The only way out of `openOutput` is the return at a failed `fopen`. -/
theorem openOutput_inl (env : Env) (s1 : State) (out : Step)
    (h : openOutput env s1 = .inl out) :
    ∃ sf, out = .ret EXIT_FAILURE .outputOpenError sf ∧ sf.i = s1.i := by
  unfold openOutput at h
  by_cases hfo : s1.fo = true
  · simp [hfo] at h
  · have hfo1 : s1.fo = false := by simpa using hfo
    by_cases ho : env.openOut s1.t = true
    · simp [hfo1, ho] at h
    · simp only [hfo1, ho, Bool.false_eq_true, if_false, Sum.inl.injEq] at h
      exact ⟨_, h.symm, rfl⟩

/-- At the return of `openOutput` no file is open. -/
theorem openOutput_inl_closed (env : Env) (s1 : State) (out : Step)
    (h : openOutput env s1 = .inl out) :
    out.state.fi = none ∧ out.state.fo = false := by
  unfold openOutput at h
  by_cases hfo : s1.fo = true
  · simp [hfo] at h
  · have hfo1 : s1.fo = false := by simpa using hfo
    by_cases ho : env.openOut s1.t = true
    · simp [hfo1, ho] at h
    · simp only [hfo1, ho, Bool.false_eq_true, if_false, Sum.inl.injEq] at h
      subst h
      exact ⟨rfl, rfl⟩

/-- When the read-error branch continues, it retried or it zero-filled. -/
theorem recover_next (env : Env) (chunk : Nat) (s s' : State)
    (h : recover env chunk s = .next s') :
    s'.fi = none ∧ s'.fo = s.fo ∧ s'.t = s.t + 1 ∧
      ((s'.i = s.i ∧ s'.dst = s.dst ∧ s.is_always_z = false) ∨
       (s'.i = s.i + 1 ∧ s'.dst = s.dst ++ List.replicate chunk 0 ∧
         env.writeOk s.t = true ∧
         Event.fwrite (List.replicate chunk 0) true ∈ s'.log.drop s.log.length)) := by
  unfold recover askUser at h
  by_cases hz : s.is_always_z = true
  · simp only [hz, if_true, true_or, zeroFill] at h
    by_cases hw : env.writeOk s.t = true
    · simp only [hw, if_true, Step.next.injEq] at h
      subst h
      refine ⟨rfl, rfl, rfl, Or.inr ⟨rfl, rfl, hw, ?_⟩⟩
      simp
    · simp [hw] at h
  · have hz1 : s.is_always_z = false := by simpa using hz
    simp only [hz1, Bool.false_eq_true, if_false] at h
    rcases hg : fgets USER_INPUT_MAX s.stdin with _ | ⟨line, rest⟩
    · rw [hg] at h
      simp at h
    · rw [hg] at h
      simp only at h
      split at h
      · unfold zeroFill at h
        by_cases hw : env.writeOk s.t = true
        · simp only [hw, if_true, Step.next.injEq] at h
          subst h
          refine ⟨rfl, rfl, rfl, Or.inr ⟨rfl, rfl, hw, ?_⟩⟩
          simp
        · simp [hw] at h
      · unfold retry at h
        simp only [Step.next.injEq] at h
        subst h
        exact ⟨rfl, rfl, rfl, Or.inl ⟨rfl, rfl, hz1⟩⟩

/-- The read-error branch never ends at `finished`, and a `break` keeps the cursor. -/
theorem recover_brk (env : Env) (chunk : Nat) (s sf : State) (why : Exit)
    (h : recover env chunk s = .brk why sf) :
    sf.i = s.i ∧ why ≠ .finished := by
  unfold recover askUser at h
  by_cases hz : s.is_always_z = true
  · simp only [hz, if_true, true_or, zeroFill] at h
    by_cases hw : env.writeOk s.t = true
    · simp [hw] at h
    · simp only [hw, Bool.false_eq_true, if_false, Step.brk.injEq] at h
      obtain ⟨h1, h2⟩ := h
      subst h1 h2
      exact ⟨rfl, by decide⟩
  · have hz1 : s.is_always_z = false := by simpa using hz
    simp only [hz1, Bool.false_eq_true, if_false] at h
    rcases hg : fgets USER_INPUT_MAX s.stdin with _ | ⟨line, rest⟩
    · rw [hg] at h
      simp only [Step.brk.injEq] at h
      obtain ⟨h1, h2⟩ := h
      subst h1 h2
      exact ⟨rfl, by decide⟩
    · rw [hg] at h
      simp only at h
      split at h
      · unfold zeroFill at h
        by_cases hw : env.writeOk s.t = true
        · simp [hw] at h
        · simp only [hw, Bool.false_eq_true, if_false, Step.brk.injEq] at h
          obtain ⟨h1, h2⟩ := h
          subst h1 h2
          exact ⟨rfl, by decide⟩
      · simp [retry] at h

/-- The read-error branch never returns. -/
theorem recover_ret (env : Env) (chunk : Nat) (s sf : State) (code : Nat) (why : Exit) :
    recover env chunk s ≠ .ret code why sf := by
  intro h
  unfold recover askUser at h
  by_cases hz : s.is_always_z = true
  · simp only [hz, if_true, true_or, zeroFill] at h
    by_cases hw : env.writeOk s.t = true <;> simp [hw] at h
  · have hz1 : s.is_always_z = false := by simpa using hz
    simp only [hz1, Bool.false_eq_true, if_false] at h
    rcases hg : fgets USER_INPUT_MAX s.stdin with _ | ⟨line, rest⟩
    · rw [hg] at h
      simp at h
    · rw [hg] at h
      simp only at h
      split at h
      · unfold zeroFill at h
        by_cases hw : env.writeOk s.t = true <;> simp [hw] at h
      · simp [retry] at h

/-- A `break` of the read-error branch: a write error, both files closed, or no operator input, the input file left as it was. -/
theorem recover_exit (env : Env) (chunk : Nat) (s sf : State) (why : Exit)
    (h : recover env chunk s = .brk why sf) :
    (why = .writeError ∧ sf.fi = none ∧ sf.fo = false) ∨
    (why = .noUserInput ∧ sf.fi = s.fi ∧ sf.fo = false) := by
  unfold recover askUser at h
  by_cases hz : s.is_always_z = true
  · simp only [hz, if_true, true_or, zeroFill] at h
    by_cases hw : env.writeOk s.t = true
    · simp [hw] at h
    · simp only [hw, Bool.false_eq_true, if_false, Step.brk.injEq] at h
      obtain ⟨h1, h2⟩ := h
      subst h1 h2
      exact Or.inl ⟨rfl, rfl, rfl⟩
  · have hz1 : s.is_always_z = false := by simpa using hz
    simp only [hz1, Bool.false_eq_true, if_false] at h
    rcases hg : fgets USER_INPUT_MAX s.stdin with _ | ⟨line, rest⟩
    · rw [hg] at h
      simp only [Step.brk.injEq] at h
      obtain ⟨h1, h2⟩ := h
      subst h1 h2
      exact Or.inr ⟨rfl, rfl, rfl⟩
    · rw [hg] at h
      simp only at h
      split at h
      · unfold zeroFill at h
        by_cases hw : env.writeOk s.t = true
        · simp [hw] at h
        · simp only [hw, Bool.false_eq_true, if_false, Step.brk.injEq] at h
          obtain ⟨h1, h2⟩ := h
          subst h1 h2
          exact Or.inl ⟨rfl, rfl, rfl⟩
      · simp [retry] at h

/-- When the loop continues after a read: a retry, a zero-fill, or a full chunk copied. -/
theorem readChunk_next (env : Env) (chunk pos : Nat) (s s' : State)
    (h : readChunk env chunk pos s = .next s') :
    s'.fo = s.fo ∧ s'.t = s.t + 1 ∧
      ((s'.i = s.i ∧ s'.dst = s.dst ∧ s'.fi = none ∧ s.is_always_z = false) ∨
       (s'.i = s.i + 1 ∧ s'.dst = s.dst ++ List.replicate chunk 0 ∧ s'.fi = none ∧
         env.writeOk s.t = true ∧
         Event.fwrite (List.replicate chunk 0) true ∈ s'.log.drop s.log.length) ∨
       (s'.i = s.i + 1 ∧ s'.dst = s.dst ++ (env.src.drop pos).take chunk ∧
         ((env.src.drop pos).take chunk).length = chunk ∧
         s'.fi = some (pos + chunk) ∧ env.writeOk s.t = true ∧
         Event.fwrite ((env.src.drop pos).take chunk) true ∈ s'.log.drop s.log.length)) := by
  unfold readChunk at h
  by_cases h1 : (fread env s.t pos chunk).rs = chunk
  · simp only [h1, if_true, fullRead] at h
    by_cases hw : env.writeOk s.t = true
    · simp only [hw, if_true, Step.next.injEq] at h
      subst h
      by_cases he : env.readErr s.t pos = true
      · have h0 : chunk = 0 := by
          rw [← h1]; simp [fread, he]
        subst h0
        refine ⟨rfl, rfl, Or.inr (Or.inr ⟨rfl, ?_, ?_, rfl, hw, ?_⟩)⟩
        · simp [fread, he]
        · simp
        · simp [fread, he]
      · have hb : (fread env s.t pos chunk).buf = (env.src.drop pos).take chunk := by
          simp [fread, he]
        have hl : ((env.src.drop pos).take chunk).length = chunk := by
          rw [← hb, fread_buf_length, h1]
        refine ⟨rfl, rfl, Or.inr (Or.inr ⟨rfl, ?_, hl, rfl, hw, ?_⟩)⟩
        · simp [hb]
        · simp [hb]
    · simp [hw] at h
  · simp only [h1, if_false] at h
    by_cases h2 : (fread env s.t pos chunk).eof = true
    · simp only [h2, if_true, endOfFile] at h
      split_ifs at h
    · simp only [h2, Bool.false_eq_true, if_false] at h
      obtain ⟨a, b, c, d⟩ := recover_next env chunk _ s' h
      refine ⟨b, c, ?_⟩
      rcases d with ⟨d1, d2, d3⟩ | ⟨d1, d2, d3, d4⟩
      · exact Or.inl ⟨d1, d2, a, d3⟩
      · refine Or.inr (Or.inl ⟨d1, d2, a, d3, ?_⟩)
        exact mem_drop_of_append _ _ _ _ d4

/-- A `break` after a read keeps the cursor; at the end of the input the bytes read were appended. -/
theorem readChunk_brk (env : Env) (chunk pos : Nat) (s sf : State) (why : Exit)
    (h : readChunk env chunk pos s = .brk why sf) :
    sf.i = s.i ∧
      (why = .finished → env.writeOk s.t = true →
        ((env.src.drop pos).take chunk).length < chunk ∧
        sf.dst = s.dst ++ (env.src.drop pos).take chunk ∧
        sf.log = s.log ++ .fread pos ((env.src.drop pos).take chunk).length ::
          ((if ((env.src.drop pos).take chunk).length = 0 then []
            else [.fwrite ((env.src.drop pos).take chunk) true]) ++
            [.fcloseOut, .fcloseIn])) := by
  unfold readChunk at h
  by_cases h1 : (fread env s.t pos chunk).rs = chunk
  · simp only [h1, if_true, fullRead] at h
    by_cases hw : env.writeOk s.t = true
    · simp [hw] at h
    · simp only [hw, Bool.false_eq_true, if_false, Step.brk.injEq] at h
      obtain ⟨h2, h3⟩ := h
      subst h2 h3
      exact ⟨rfl, fun hh => absurd hh (by decide)⟩
  · simp only [h1, if_false] at h
    by_cases h2 : (fread env s.t pos chunk).eof = true
    · have he : env.readErr s.t pos = false := by
        by_contra hne
        have : env.readErr s.t pos = true := by simpa using hne
        simp [fread, this] at h2
      have hrs : (fread env s.t pos chunk).rs = ((env.src.drop pos).take chunk).length := by
        simp [fread, he]
      have hbuf : (fread env s.t pos chunk).buf = (env.src.drop pos).take chunk := by
        simp [fread, he]
      have hlt : ((env.src.drop pos).take chunk).length < chunk := by
        simpa [fread, he] using h2
      simp only [h2, if_true, endOfFile, hrs, hbuf] at h
      by_cases h0 : ((env.src.drop pos).take chunk).length = 0
      · simp only [h0, ne_eq, not_true_eq_false, if_false, Step.brk.injEq] at h
        obtain ⟨h3, h4⟩ := h
        subst h3 h4
        refine ⟨rfl, fun _ _ => ⟨hlt, ?_, ?_⟩⟩
        · have : (env.src.drop pos).take chunk = [] := List.length_eq_zero.mp h0
          simp [this]
        · simp [h0]
      · by_cases hw : env.writeOk s.t = true
        · simp only [h0, ne_eq, not_false_eq_true, if_true, hw, Step.brk.injEq] at h
          obtain ⟨h3, h4⟩ := h
          subst h3 h4
          refine ⟨rfl, fun _ _ => ⟨hlt, rfl, ?_⟩⟩
          rw [if_neg h0]
          simp only [List.append_assoc, List.cons_append, List.nil_append]
        · simp only [h0, ne_eq, not_false_eq_true, if_true, hw, Bool.false_eq_true,
            if_false, Step.brk.injEq] at h
          obtain ⟨h3, h4⟩ := h
          subst h3 h4
          exact ⟨rfl, fun _ hh => absurd hh hw⟩
    · simp only [h2, Bool.false_eq_true, if_false] at h
      obtain ⟨a, b⟩ := recover_brk env chunk _ sf why h
      exact ⟨a, fun hh => absurd hh b⟩

/-- No `return` after a read. -/
theorem readChunk_ret (env : Env) (chunk pos : Nat) (s sf : State) (code : Nat)
    (why : Exit) : readChunk env chunk pos s ≠ .ret code why sf := by
  intro h
  unfold readChunk at h
  by_cases h1 : (fread env s.t pos chunk).rs = chunk
  · simp only [h1, if_true, fullRead] at h
    by_cases hw : env.writeOk s.t = true <;> simp [hw] at h
  · simp only [h1, if_false] at h
    by_cases h2 : (fread env s.t pos chunk).eof = true
    · simp only [h2, if_true, endOfFile] at h
      split_ifs at h
    · simp only [h2, Bool.false_eq_true, if_false] at h
      exact recover_ret env chunk _ sf code why h

/-- A `break` after a read: which exit, and which files are open. -/
theorem readChunk_exit (env : Env) (chunk pos : Nat) (s sf : State) (why : Exit)
    (h : readChunk env chunk pos s = .brk why sf) :
    ((why = .writeError ∨ why = .finished) ∧ sf.fi = none ∧ sf.fo = false) ∨
    (why = .noUserInput ∧ (∃ p, sf.fi = some p) ∧ sf.fo = false) := by
  unfold readChunk at h
  by_cases h1 : (fread env s.t pos chunk).rs = chunk
  · simp only [h1, if_true, fullRead] at h
    by_cases hw : env.writeOk s.t = true
    · simp [hw] at h
    · simp only [hw, Bool.false_eq_true, if_false, Step.brk.injEq] at h
      obtain ⟨h2, h3⟩ := h
      subst h2 h3
      exact Or.inl ⟨Or.inl rfl, rfl, rfl⟩
  · simp only [h1, if_false] at h
    by_cases h2 : (fread env s.t pos chunk).eof = true
    · simp only [h2, if_true, endOfFile] at h
      split_ifs at h
      all_goals
        simp only [Step.brk.injEq] at h
        obtain ⟨h3, h4⟩ := h
        subst h3 h4
        exact Or.inl ⟨Or.inr rfl, rfl, rfl⟩
    · simp only [h2, Bool.false_eq_true, if_false] at h
      rcases recover_exit env chunk _ sf why h with ⟨a, b, c⟩ | ⟨a, b, c⟩
      · exact Or.inl ⟨Or.inl a, b, c⟩
      · exact Or.inr ⟨a, ⟨_, b⟩, c⟩

/-- Reading a chunk and acting on the outcome never resets `is_always_z`. -/
theorem readChunk_keeps_always_z (env : Env) (chunk pos : Nat) (s : State)
    (h : s.is_always_z = true) : (readChunk env chunk pos s).state.is_always_z = true := by
  unfold readChunk fullRead endOfFile recover askUser zeroFill retry
  simp only [h, if_true, true_or]
  repeat' split
  all_goals simp only [Step.state, h]

/-! ## One pass through the loop body -/

/-- One pass through the body either returns at a failed `fopen`, the cursor
unchanged, or reaches the read of a chunk. -/
theorem body_cases (env : Env) (chunk start : Nat) (s : State) :
    (∃ why sf, body env chunk start s = .ret EXIT_FAILURE why sf ∧ sf.i = s.i ∧
      (why = .inputOpenError ∨ why = .outputOpenError)) ∨
    (∃ pos s1 s2, openInput env chunk start s = .inr (pos, s1) ∧
      openOutput env s1 = .inr s2 ∧
      body env chunk start s = readChunk env chunk pos s2) := by
  unfold body
  rcases hi : openInput env chunk start s with out | ⟨pos, s1⟩
  · obtain ⟨sf, h1, h2⟩ := openInput_inl env chunk start s out hi
    exact Or.inl ⟨_, sf, h1, h2, Or.inl rfl⟩
  · dsimp only
    rcases ho : openOutput env s1 with out | s2
    · obtain ⟨sf, h1, h2⟩ := openOutput_inl env s1 out ho
      have h3 := (openInput_frame env chunk start s pos s1 hi).1
      exact Or.inl ⟨_, sf, h1, h2.trans h3, Or.inr rfl⟩
    · exact Or.inr ⟨pos, s1, s2, rfl, ho, rfl⟩

/-- A pass through the body that continues keeps the invariant. -/
theorem body_next_inv (env : Env) (chunk start : Nat) (s s' : State)
    (hinv : Inv chunk start s) (h : body env chunk start s = .next s') :
    Inv chunk start s' ∧ s'.t = s.t + 1 := by
  rcases body_cases env chunk start s with ⟨why, sf, h1, _⟩ | ⟨pos, s1, s2, h1, h2, h3⟩
  · rw [h1] at h
    simp at h
  · rw [h3] at h
    obtain ⟨a1, a2, a3, a4, a5, a6, a7, a8, a9⟩ := openInput_inr env chunk start s pos s1 hinv h1
    obtain ⟨b1, b2, b3, b4, b5, b6, b7, b8⟩ := openOutput_inr env chunk start s1 s2 a9 h2
    obtain ⟨c1, c2, c3⟩ := readChunk_next env chunk pos s2 s' h
    refine ⟨?_, by omega⟩
    rw [b1] at c1
    rcases c3 with ⟨d1, d2, d3, _⟩ | ⟨d1, d2, d3, _⟩ | ⟨d1, d2, d3, d4, _⟩
    · refine ⟨fun p hp => by rw [d3] at hp; exact absurd hp (by simp), ?_⟩
      simp only [c1, if_true, d1, d2]
      exact b7
    · refine ⟨fun p hp => by rw [d3] at hp; exact absurd hp (by simp), ?_⟩
      simp only [c1, if_true, d1, d2, List.length_append, List.length_replicate, b7]
      ring
    · refine ⟨?_, ?_⟩
      · intro p hp hr
        rw [d4] at hp
        simp only [Option.some.injEq] at hp
        have hexp : s'.i * chunk + start = s.i * chunk + start + chunk := by
          rw [d1, b3, a3]; ring
        rw [hexp] at hr ⊢
        rw [← hp, a1 (by omega)]
      · simp only [c1, if_true, d1, d2, List.length_append, d3, b7]
        ring

/-- One pass through the loop body never resets `is_always_z`. -/
theorem body_keeps_always_z (env : Env) (chunk start : Nat) (s : State)
    (h : s.is_always_z = true) : (body env chunk start s).state.is_always_z = true := by
  unfold body openInput openOutput
  rcases hfi : s.fi with _ | pos
  · by_cases h1 : env.openIn s.t = true
    · by_cases h2 : s.fo = true
      · simp only [h1, h2, if_true]
        exact readChunk_keeps_always_z env chunk _ _ h
      · by_cases h3 : env.openOut s.t = true
        · simp only [h1, h2, h3, if_true, if_false]
          exact readChunk_keeps_always_z env chunk _ _ h
        · simp only [h1, h2, h3, if_true, if_false, Step.state]
          exact h
    · simp only [h1, if_false, Step.state]
      exact h
  · by_cases h2 : s.fo = true
    · simp only [h2, if_true]
      exact readChunk_keeps_always_z env chunk _ _ h
    · by_cases h3 : env.openOut s.t = true
      · simp only [h2, h3, if_true, if_false]
        exact readChunk_keeps_always_z env chunk _ _ h
      · simp only [h2, h3, if_false, Step.state]
        exact h

/-- The relation `Quiet` is transitive. -/
theorem Quiet.trans {a b c : State} (h1 : Quiet a b) (h2 : Quiet b c) : Quiet a c :=
  ⟨h2.1.trans h1.1, h2.2.1.trans h1.2.1, fun h => h1.2.2 (h2.2.2 h)⟩

/-- The invariant holds in the initial state. -/
theorem init_inv (env : Env) (chunk start : Nat) (stdin : List Char) :
    Inv chunk start (State.init env stdin) :=
  ⟨fun _ hp => absurd hp (by simp [State.init]), by simp [State.init]⟩

/-- The invariant holds at the entry of every iteration. -/
theorem stateAt_inv (env : Env) (chunk start : Nat) :
    ∀ (n : Nat) (s s' : State), Inv chunk start s →
      stateAt env chunk start n s = some s' → Inv chunk start s' := by
  intro n
  induction n with
  | zero =>
    intro s s' h hs
    simp only [stateAt, Option.some.injEq] at hs
    rw [← hs]; exact h
  | succ n ih =>
    intro s s' h hs
    simp only [stateAt] at hs
    split at hs
    · next s1 heq => exact ih s1 s' (body_next_inv env chunk start s s1 h heq).1 hs
    · exact absurd hs (by simp)

/-- Once `is_always_z` is set it is set at the entry of every later iteration. -/
theorem stateAt_keeps_always_z (env : Env) (chunk start : Nat) :
    ∀ (n : Nat) (s s' : State), s.is_always_z = true →
      stateAt env chunk start n s = some s' → s'.is_always_z = true := by
  intro n
  induction n with
  | zero =>
    intro s s' h hs
    simp only [stateAt, Option.some.injEq] at hs
    rw [← hs]; exact h
  | succ n ih =>
    intro s s' h hs
    have hb := body_keeps_always_z env chunk start s h
    simp only [stateAt] at hs
    split at hs
    · next s1 heq =>
      rw [heq] at hb
      exact ih s1 s' hb hs
    · exact absurd hs (by simp)

/-- Once `is_always_z` is set it is set in the state the run ends in. -/
theorem mainLoop_keeps_always_z (env : Env) (chunk start : Nat) :
    ∀ (fuel : Nat) (s : State) (r : Result), s.is_always_z = true →
      mainLoop env chunk start fuel s = some r → r.st.is_always_z = true := by
  intro fuel
  induction fuel with
  | zero =>
    intro s r _ hs
    simp [mainLoop] at hs
  | succ n ih =>
    intro s r h hs
    have hb := body_keeps_always_z env chunk start s h
    simp only [mainLoop] at hs
    split at hs
    · next s1 heq =>
      rw [heq] at hb
      exact ih s1 r hb hs
    · next why s1 heq =>
      rw [heq] at hb
      simp only [Option.some.injEq] at hs
      rw [← hs]; exact hb
    · next code why s1 heq =>
      rw [heq] at hb
      simp only [Option.some.injEq] at hs
      rw [← hs]; exact hb

/-- The last read of a run that ends at `finished`, every write succeeding. -/
theorem mainLoop_finished (env : Env) (chunk start : Nat)
    (hwr : ∀ t, env.writeOk t = true) :
    ∀ (fuel : Nat) (s : State) (r : Result), Inv chunk start s →
      mainLoop env chunk start fuel s = some r → r.why = .finished →
      ∃ pre pos buf, buf = (env.src.drop pos).take chunk ∧
        (r.st.i * chunk + start ≤ LONG_MAX → pos = r.st.i * chunk + start) ∧
        r.st.log = pre ++ .fread pos buf.length ::
          ((if buf.length = 0 then [] else [.fwrite buf true]) ++
            [.fcloseOut, .fcloseIn]) ∧
        buf.length < chunk ∧ r.st.dst.length = r.st.i * chunk + buf.length := by
  intro fuel
  induction fuel with
  | zero =>
    intro s r _ hs
    simp [mainLoop] at hs
  | succ n ih =>
    intro s r hinv hs hfin
    simp only [mainLoop] at hs
    split at hs
    · next s1 heq => exact ih s1 r (body_next_inv env chunk start s s1 hinv heq).1 hs hfin
    · next why sf heq =>
      simp only [Option.some.injEq] at hs
      subst hs
      simp only at hfin
      subst hfin
      rcases body_cases env chunk start s with ⟨why, sf', h1, _⟩ | ⟨pos, s1, s2, h1, h2, h3⟩
      · rw [h1] at heq
        simp at heq
      · rw [h3] at heq
        obtain ⟨a1, _, a3, _, _, _, _, _, a9⟩ :=
          openInput_inr env chunk start s pos s1 hinv h1
        obtain ⟨_, _, b3, _, _, _, b7, _⟩ := openOutput_inr env chunk start s1 s2 a9 h2
        obtain ⟨c1, c2⟩ := readChunk_brk env chunk pos s2 sf _ heq
        obtain ⟨d1, d2, d3⟩ := c2 rfl (hwr _)
        have hi : sf.i = s.i := by rw [c1, b3, a3]
        simp only
        refine ⟨s2.log, pos, _, rfl, ?_, d3, d1, ?_⟩
        · intro hr
          rw [hi] at hr ⊢
          exact a1 hr
        · rw [d2, List.length_append, b7, c1]
    · next code why sf heq =>
      simp only [Option.some.injEq] at hs
      subst hs
      simp only at hfin
      subst hfin
      rcases body_cases env chunk start s with ⟨why, sf', h1, _, h3⟩ | ⟨pos, s1, s2, h1, h2, h3⟩
      · rw [h1] at heq
        simp only [Step.ret.injEq] at heq
        rcases h3 with h3 | h3 <;> rw [h3] at heq <;> simp at heq
      · rw [h3] at heq
        exact absurd heq (readChunk_ret env chunk pos s2 sf code _)

/-- The ways in which the loop is left: through `break` after a write error or
at the end of the input, both files closed; through `break` when the
operator's input cannot be read, the input file still open; through
`return EXIT_FAILURE` when a file cannot be opened, both files closed. -/
theorem mainLoop_exit (env : Env) (chunk start : Nat) :
    ∀ (fuel : Nat) (s : State) (r : Result), mainLoop env chunk start fuel s = some r →
      (r.status = EXIT_SUCCESS ∧ (r.why = .writeError ∨ r.why = .finished) ∧
        r.st.fi = none ∧ r.st.fo = false) ∨
      (r.status = EXIT_SUCCESS ∧ r.why = .noUserInput ∧ (∃ p, r.st.fi = some p) ∧
        r.st.fo = false) ∨
      (r.status = EXIT_FAILURE ∧ (r.why = .inputOpenError ∨ r.why = .outputOpenError) ∧
        r.st.fi = none ∧ r.st.fo = false) := by
  intro fuel
  induction fuel with
  | zero =>
    intro s r h
    simp [mainLoop] at h
  | succ n ih =>
    intro s r h
    simp only [mainLoop] at h
    split at h
    · next s1 heq => exact ih s1 r h
    · next why sf heq =>
      simp only [Option.some.injEq] at h
      subst h
      rcases body_cases env chunk start s with ⟨w, sf', h1, _⟩ | ⟨pos, s1, s2, _, _, h3⟩
      · rw [h1] at heq
        simp at heq
      · rw [h3] at heq
        rcases readChunk_exit env chunk pos s2 sf why heq with ⟨a, b, c⟩ | ⟨a, b, c⟩
        · exact Or.inl ⟨rfl, a, b, c⟩
        · exact Or.inr (Or.inl ⟨rfl, a, b, c⟩)
    · next code why sf heq =>
      simp only [Option.some.injEq] at h
      subst h
      right; right
      unfold body at heq
      rcases hi : openInput env chunk start s with out | ⟨pos, s1⟩
      · rw [hi] at heq
        dsimp only at heq
        obtain ⟨sf', h1, _⟩ := openInput_inl env chunk start s out hi
        have hc := openInput_inl_closed env chunk start s out hi
        rw [heq] at h1 hc
        simp only [Step.ret.injEq] at h1
        exact ⟨h1.1, Or.inl h1.2.1, hc.1, hc.2⟩
      · rw [hi] at heq
        dsimp only at heq
        rcases ho : openOutput env s1 with out | s2
        · rw [ho] at heq
          dsimp only at heq
          obtain ⟨sf', h1, _⟩ := openOutput_inl env s1 out ho
          have hc := openOutput_inl_closed env s1 out ho
          rw [heq] at h1 hc
          simp only [Step.ret.injEq] at h1
          exact ⟨h1.1, Or.inr h1.2.1, hc.1, hc.2⟩
        · rw [ho] at heq
          dsimp only at heq
          exact absurd heq (readChunk_ret env chunk pos s2 sf code why)

/-- A run that ends at `finished` went through the loop. -/
theorem main_finished (env : Env) (argv : List String) (stdin : List Char) (fuel : Nat)
    (r : Result) (h : main env argv stdin fuel = some r) (hw : r.why = .finished) :
    mainLoop env (argChunk env argv) (argStart env argv) fuel (State.init env stdin) =
      some r := by
  unfold main at h
  split_ifs at h
  all_goals first
    | exact h
    | (simp only [Option.some.injEq] at h
       rw [← h] at hw
       simp at hw)

/-- Exit status and handles, for every way out of `main`: the status is
`EXIT_SUCCESS` exactly for the exits `usage`, `nothingToDo`, `finished`,
`writeError` and `noUserInput`; the output file is never left open; the input
file is left open exactly at the exit `noUserInput`. -/
theorem exit_summary (env : Env) (argv : List String) (stdin : List Char) (fuel : Nat)
    (r : Result) (h : main env argv stdin fuel = some r) :
    (r.status = EXIT_SUCCESS ↔
      (r.why = .usage ∨ r.why = .nothingToDo ∨ r.why = .finished ∨ r.why = .writeError ∨
        r.why = .noUserInput)) ∧
    (r.status = EXIT_FAILURE ↔
      (r.why = .pathTooLong ∨ r.why = .zeroChunk ∨ r.why = .noMemory ∨
        r.why = .inputOpenError ∨ r.why = .outputOpenError)) ∧
    r.st.fo = false ∧
    (r.st.fi = none ↔ r.why ≠ .noUserInput) := by
  unfold main at h
  split_ifs at h
  all_goals first
    | (simp only [Option.some.injEq] at h
       subst h
       simp [EXIT_SUCCESS, EXIT_FAILURE, State.init])
    | (rcases mainLoop_exit env _ _ fuel _ r h with ⟨a, b | b, c, d⟩ | ⟨a, b, ⟨p, c⟩, d⟩ |
          ⟨a, b | b, c, d⟩
       all_goals simp [a, b, c, d, EXIT_SUCCESS, EXIT_FAILURE])

/-- C3: the run starts with `is_always_z = false`; an answer that starts with
`z` or `Z` sets it; once set it stays set after every pass through the loop
body, at the entry of every later iteration and in the final state; and while
it is set, a read error is resolved without a prompt and without reading the
operator's input, by writing `chunk` zero bytes and, the write succeeding,
advancing the cursor by one. -/
theorem C3_sticky_zero_fill (env : Env) (chunk start : Nat) (hchunk : 0 < chunk) :
    (∀ stdin, (State.init env stdin).is_always_z = false) ∧
    (∀ (s : State) (pos : Nat) (line rest : List Char),
      env.readErr s.t pos = true → s.is_always_z = false →
      fgets USER_INPUT_MAX s.stdin = some (line, rest) →
      (line.headD (Char.ofNat 0) = 'z' ∨ line.headD (Char.ofNat 0) = 'Z') →
      (readChunk env chunk pos s).state.is_always_z = true) ∧
    (∀ s : State, s.is_always_z = true →
      (body env chunk start s).state.is_always_z = true) ∧
    (∀ (n : Nat) (s s' : State), s.is_always_z = true →
      stateAt env chunk start n s = some s' → s'.is_always_z = true) ∧
    (∀ (fuel : Nat) (s : State) (r : Result), s.is_always_z = true →
      mainLoop env chunk start fuel s = some r → r.st.is_always_z = true) ∧
    (∀ (s : State) (pos : Nat), s.is_always_z = true → env.readErr s.t pos = true →
      readChunk env chunk pos s =
        if env.writeOk s.t then
          Step.next { s with
            fi := none, i := s.i + 1, dst := s.dst ++ List.replicate chunk 0
            t := s.t + 1
            log := s.log ++
              [.fread pos 0, .fwrite (List.replicate chunk 0) true, .fcloseIn] }
        else
          Step.brk .writeError { s with
            fi := none, fo := false
            log := s.log ++
              [.fread pos 0, .fwrite (List.replicate chunk 0) false, .fcloseOut,
                .fcloseIn] }) := by
  have hne : ¬ (0 = chunk) := by omega
  refine ⟨fun _ => rfl, ?_, body_keeps_always_z env chunk start,
    stateAt_keeps_always_z env chunk start, mainLoop_keeps_always_z env chunk start, ?_⟩
  · intro s pos line rest herr hmode hline hc
    have hz : line.headD (Char.ofNat 0) = 'Z' ∨ line.headD (Char.ofNat 0) = 'z' := hc.symm
    simp only [readChunk, fread, herr, if_true, hne, if_false, recover, askUser, hmode,
      hline, hz, decide_True, Bool.false_eq_true, true_or, zeroFill]
    split <;> rfl
  · intro s pos hmode herr
    simp only [readChunk, fread, herr, if_true, hne, if_false, recover, askUser, hmode,
      Bool.false_eq_true, true_or, zeroFill, List.append_assoc, List.cons_append,
      List.nil_append]

/-- C3, witness: in the permanent mode a read error is zero-filled with the
operator's input left untouched. -/
theorem C3_sticky_zero_fill_witness :
    readChunk (deadEnv exampleSrc) 4 0 (midState true ['y', Char.ofNat 10]) =
      if (deadEnv exampleSrc).writeOk (midState true ['y', Char.ofNat 10]).t then
        Step.next { midState true ['y', Char.ofNat 10] with
          fi := none, i := (midState true ['y', Char.ofNat 10]).i + 1
          dst := (midState true ['y', Char.ofNat 10]).dst ++ List.replicate 4 0
          t := (midState true ['y', Char.ofNat 10]).t + 1
          log := (midState true ['y', Char.ofNat 10]).log ++
            [.fread 0 0, .fwrite (List.replicate 4 0) true, .fcloseIn] }
      else
        Step.brk .writeError { midState true ['y', Char.ofNat 10] with
          fi := none, fo := false
          log := (midState true ['y', Char.ofNat 10]).log ++
            [.fread 0 0, .fwrite (List.replicate 4 0) false, .fcloseOut, .fcloseIn] } :=
  (C3_sticky_zero_fill (deadEnv exampleSrc) 4 0 (by decide)).2.2.2.2.2
    (midState true ['y', Char.ofNat 10]) 0 rfl rfl

/-- C4: at every entry to the read step of a run the destination holds
`i * chunk_size` bytes, `i` being the cursor; the read step, when the loop
continues after it, either leaves cursor and destination unchanged (a retry)
or advances the cursor by one and appends exactly `chunk_size` bytes (a full
read or a zero-fill); and when every write succeeds and the run ends at the
end of the input, its last read (issued at byte `i * chunk_size + start` when
that offset is in the range of `long`) returned `k < chunk_size` bytes and the
destination holds `i * chunk_size + k` bytes. -/
theorem C4_destination_length (env : Env) (argv : List String) (stdin : List Char) :
    (∀ (n : Nat) (s : State) (pos : Nat) (s1 s2 : State),
      stateAt env (argChunk env argv) (argStart env argv) n (State.init env stdin) = some s →
      openInput env (argChunk env argv) (argStart env argv) s = .inr (pos, s1) →
      openOutput env s1 = .inr s2 →
      s2.i = s.i ∧ s2.dst.length = s2.i * argChunk env argv) ∧
    (∀ (pos : Nat) (s s' : State),
      readChunk env (argChunk env argv) pos s = .next s' →
      (s'.i = s.i ∧ s'.dst = s.dst) ∨
      (s'.i = s.i + 1 ∧ ∃ data, data.length = argChunk env argv ∧
        s'.dst = s.dst ++ data)) ∧
    (∀ (fuel : Nat) (r : Result), (∀ t, env.writeOk t = true) →
      main env argv stdin fuel = some r → r.why = .finished →
      ∃ pre pos buf,
        buf = (env.src.drop pos).take (argChunk env argv) ∧
        (r.st.i * argChunk env argv + argStart env argv ≤ LONG_MAX →
          pos = r.st.i * argChunk env argv + argStart env argv) ∧
        r.st.log = pre ++ .fread pos buf.length ::
          ((if buf.length = 0 then [] else [.fwrite buf true]) ++
            [.fcloseOut, .fcloseIn]) ∧
        buf.length < argChunk env argv ∧
        r.st.dst.length = r.st.i * argChunk env argv + buf.length) := by
  refine ⟨?_, ?_, ?_⟩
  · intro n s pos s1 s2 hs h1 h2
    have hinv := stateAt_inv env _ _ n _ s (init_inv env _ _ stdin) hs
    obtain ⟨_, _, a3, _, _, _, _, _, a9⟩ := openInput_inr env _ _ s pos s1 hinv h1
    obtain ⟨_, _, b3, _, _, _, b7, _⟩ := openOutput_inr env _ _ s1 s2 a9 h2
    exact ⟨by omega, b7⟩
  · intro pos s s' h
    obtain ⟨_, _, c⟩ := readChunk_next env _ pos s s' h
    rcases c with ⟨d1, d2, _⟩ | ⟨d1, d2, _⟩ | ⟨d1, d2, d3, _⟩
    · exact Or.inl ⟨d1, d2⟩
    · exact Or.inr ⟨d1, _, List.length_replicate _ _, d2⟩
    · exact Or.inr ⟨d1, _, d3, d2⟩
  · intro fuel r hwr hm hfin
    exact mainLoop_finished env _ _ hwr fuel _ r (init_inv env _ _ stdin)
      (main_finished env argv stdin fuel r hm hfin) hfin

/-- C4, witness: the nine bytes `AABBCCDDE` copied in chunks of four: two
chunks and a trailing read of one byte. -/
theorem C4_destination_length_witness :
    ∃ r, main (goodEnv exampleSrc) ["p", "in", "out", "4"] [] 3 = some r ∧
      r.st.i = 2 ∧
      ∃ pre pos buf, buf = (exampleSrc.drop pos).take 4 ∧
        (r.st.i * 4 + 0 ≤ LONG_MAX → pos = r.st.i * 4 + 0) ∧
        r.st.log = pre ++ .fread pos buf.length ::
          ((if buf.length = 0 then [] else [.fwrite buf true]) ++
            [.fcloseOut, .fcloseIn]) ∧
        buf.length < 4 ∧ r.st.dst.length = r.st.i * 4 + buf.length :=
  ⟨_, rfl, rfl,
    (C4_destination_length (goodEnv exampleSrc) ["p", "in", "out", "4"] []).2.2 3 _
      (fun _ => rfl) rfl rfl⟩

/-- C5: when a read hits a device error while `is_always_z` is `false` and
`fgets` obtains a line, the outcome is decided by the first character of the
line: `n` or `N` zero-fills this chunk and leaves the mode unchanged, `z` or
`Z` zero-fills and makes zero-filling permanent, any other character retries:
the cursor and the destination are unchanged and nothing is written.  (A
zero-fill whose write fails ends the run instead of advancing.) -/
theorem C5_prompt_interpretation (env : Env) (chunk pos : Nat) (s : State)
    (line rest : List Char) (hchunk : 0 < chunk)
    (herr : env.readErr s.t pos = true) (hmode : s.is_always_z = false)
    (hline : fgets USER_INPUT_MAX s.stdin = some (line, rest)) :
    ((line.headD (Char.ofNat 0) = 'n' ∨ line.headD (Char.ofNat 0) = 'N') →
      readChunk env chunk pos s =
        if env.writeOk s.t then
          Step.next { s with
            fi := none, i := s.i + 1, dst := s.dst ++ List.replicate chunk 0
            is_always_z := false, stdin := rest, t := s.t + 1
            log := s.log ++ [.fread pos 0, .prompt, .fgets (some line),
              .fwrite (List.replicate chunk 0) true, .fcloseIn] }
        else
          Step.brk .writeError { s with
            fi := none, fo := false, is_always_z := false, stdin := rest
            log := s.log ++ [.fread pos 0, .prompt, .fgets (some line),
              .fwrite (List.replicate chunk 0) false, .fcloseOut, .fcloseIn] }) ∧
    ((line.headD (Char.ofNat 0) = 'z' ∨ line.headD (Char.ofNat 0) = 'Z') →
      readChunk env chunk pos s =
        if env.writeOk s.t then
          Step.next { s with
            fi := none, i := s.i + 1, dst := s.dst ++ List.replicate chunk 0
            is_always_z := true, stdin := rest, t := s.t + 1
            log := s.log ++ [.fread pos 0, .prompt, .fgets (some line),
              .fwrite (List.replicate chunk 0) true, .fcloseIn] }
        else
          Step.brk .writeError { s with
            fi := none, fo := false, is_always_z := true, stdin := rest
            log := s.log ++ [.fread pos 0, .prompt, .fgets (some line),
              .fwrite (List.replicate chunk 0) false, .fcloseOut, .fcloseIn] }) ∧
    ((line.headD (Char.ofNat 0) ≠ 'n' ∧ line.headD (Char.ofNat 0) ≠ 'N' ∧
        line.headD (Char.ofNat 0) ≠ 'z' ∧ line.headD (Char.ofNat 0) ≠ 'Z') →
      readChunk env chunk pos s =
        Step.next { s with
          fi := none, is_always_z := false, stdin := rest, t := s.t + 1
          log := s.log ++ [.fread pos 0, .prompt, .fgets (some line), .fcloseIn] }) := by
  have hne : ¬ (0 = chunk) := by omega
  refine ⟨?_, ?_, ?_⟩
  · intro hc
    have hz : ¬ (line.headD (Char.ofNat 0) = 'Z' ∨ line.headD (Char.ofNat 0) = 'z') := by
      rcases hc with h | h <;> rw [h] <;> decide
    have hn : line.headD (Char.ofNat 0) = 'N' ∨ line.headD (Char.ofNat 0) = 'n' := hc.symm
    simp only [readChunk, fread, herr, if_true, hne, if_false, recover, askUser, hmode,
      hline, hz, decide_False, Bool.false_eq_true, false_or, hn, zeroFill,
      List.append_assoc, List.cons_append, List.nil_append]
  · intro hc
    have hz : line.headD (Char.ofNat 0) = 'Z' ∨ line.headD (Char.ofNat 0) = 'z' := hc.symm
    simp only [readChunk, fread, herr, if_true, hne, if_false, recover, askUser, hmode,
      hline, hz, decide_True, Bool.false_eq_true, true_or, zeroFill,
      List.append_assoc, List.cons_append, List.nil_append]
  · rintro ⟨h1, h2, h3, h4⟩
    have hz : ¬ (line.headD (Char.ofNat 0) = 'Z' ∨ line.headD (Char.ofNat 0) = 'z') := by
      rintro (h | h)
      · exact h4 h
      · exact h3 h
    have hn : ¬ (line.headD (Char.ofNat 0) = 'N' ∨ line.headD (Char.ofNat 0) = 'n') := by
      rintro (h | h)
      · exact h2 h
      · exact h1 h
    simp only [readChunk, fread, herr, if_true, hne, if_false, recover, askUser, hmode,
      hline, hz, decide_False, Bool.false_eq_true, false_or, hn, retry,
      List.append_assoc, List.cons_append, List.nil_append]

/-- C5, witness: the answer `y` retries. -/
theorem C5_prompt_interpretation_witness :
    readChunk (deadEnv exampleSrc) 4 0 (midState false ['y', Char.ofNat 10]) =
      Step.next { midState false ['y', Char.ofNat 10] with
        fi := none, is_always_z := false, stdin := []
        t := (midState false ['y', Char.ofNat 10]).t + 1
        log := (midState false ['y', Char.ofNat 10]).log ++
          [.fread 0 0, .prompt, .fgets (some ['y', Char.ofNat 10]), .fcloseIn] } :=
  (C5_prompt_interpretation (deadEnv exampleSrc) 4 0 (midState false ['y', Char.ofNat 10])
    ['y', Char.ofNat 10] [] (by decide) rfl rfl rfl).2.2 (by decide)

/-- C6 (amended): when `end_offset` parses to a non-zero value and
`start_offset >= end_offset`, `main` returns without any I/O: no file is
opened, nothing is read from the operator, the output path keeps its content;
and for a valid configuration (output path within `PATH_MAX`, chunk size not
zero) the status is success. -/
theorem C6_nothing_to_do (env : Env) (argv : List String) (stdin : List Char) (fuel : Nat)
    (hend : argEnd env argv ≠ 0) (hge : argStart env argv ≥ argEnd env argv) :
    ∃ r, main env argv stdin fuel = some r ∧ r.st = State.init env stdin ∧
      r.st.log = [] ∧ r.st.fi = none ∧ r.st.fo = false ∧ r.st.dst = env.dst0 ∧
      (strlen (argv.getD ARG_FILE_OUTPUT "") ≤ env.PATH_MAX → argChunk env argv ≠ 0 →
        r.status = EXIT_SUCCESS ∧ r.why = Exit.nothingToDo) := by
  have hlen : ¬ argv.length < ARGS_MIN := by
    intro h
    apply hend
    unfold argEnd
    rw [if_neg]
    simp only [ARGS_MIN, ARG_END_OFFSET] at *
    omega
  unfold main
  rw [if_neg hlen]
  by_cases hp : strlen (argv.getD ARG_FILE_OUTPUT "") > env.PATH_MAX
  · rw [if_pos hp]
    refine ⟨_, rfl, rfl, rfl, rfl, rfl, rfl, ?_⟩
    intro h; omega
  · rw [if_neg hp]
    by_cases hc : argv.length > ARG_CHUNK_SIZE ∧ argChunk env argv = 0
    · rw [if_pos hc]
      refine ⟨_, rfl, rfl, rfl, rfl, rfl, rfl, ?_⟩
      intro _ h; exact absurd hc.2 h
    · rw [if_neg hc, if_pos ⟨hend, hge⟩]
      exact ⟨_, rfl, rfl, rfl, rfl, rfl, rfl, fun _ _ => ⟨rfl, rfl⟩⟩

/-- C6, witness: `start = 9`, `end = 5`. -/
theorem C6_nothing_to_do_witness :
    ∃ r, main (goodEnv exampleSrc) ["p", "in", "out", "4", "9", "5"] [] 0 = some r ∧
      r.st = State.init (goodEnv exampleSrc) [] ∧
      r.st.log = [] ∧ r.st.fi = none ∧ r.st.fo = false ∧
      r.st.dst = (goodEnv exampleSrc).dst0 ∧
      (strlen (["p", "in", "out", "4", "9", "5"].getD ARG_FILE_OUTPUT "") ≤
          (goodEnv exampleSrc).PATH_MAX →
        argChunk (goodEnv exampleSrc) ["p", "in", "out", "4", "9", "5"] ≠ 0 →
        r.status = EXIT_SUCCESS ∧ r.why = Exit.nothingToDo) :=
  C6_nothing_to_do (goodEnv exampleSrc) ["p", "in", "out", "4", "9", "5"] [] 0
    (by decide) (by decide)

/-- C6, counterexample: with `start_offset` and `end_offset` both given as
`0`, so that `start_offset >= end_offset`, the run opens both files and
replaces the content of the output path by a copy of the input. -/
theorem C6_end_zero_copies :
    (["p", "in", "out", "4", "0", "0"] : List String).length > ARG_END_OFFSET ∧
    argStart (goodEnv exampleSrc) ["p", "in", "out", "4", "0", "0"] ≥
      argEnd (goodEnv exampleSrc) ["p", "in", "out", "4", "0", "0"] ∧
    ∃ r, main (goodEnv exampleSrc) ["p", "in", "out", "4", "0", "0"] [] 3 = some r ∧
      r.st.dst = exampleSrc ∧ r.st.dst ≠ (goodEnv exampleSrc).dst0 ∧
      Event.fopenIn true ∈ r.st.log ∧ Event.fopenOut true ∈ r.st.log := by
  refine ⟨by decide, by decide, _, rfl, ?_, ?_, ?_, ?_⟩ <;> decide

/-- C7, the code at the failing inputs: a failed write of a full chunk, and a
failed write of a zero-filled chunk, both end the run through `break`, and the
run returns `EXIT_SUCCESS`. -/
theorem C7_write_error_returns_success :
    (∃ r, main (fullDiskEnv exampleSrc) ["p", "in", "out", "4"] [] 1 = some r ∧
      r.why = Exit.writeError ∧ Event.fwrite [65, 65, 66, 66] false ∈ r.st.log ∧
      r.status = EXIT_SUCCESS) ∧
    (∃ r, main (deadFullEnv exampleSrc) ["p", "in", "out", "4"] ['n', Char.ofNat 10] 1 =
        some r ∧
      r.why = Exit.writeError ∧ Event.fwrite [0, 0, 0, 0] false ∈ r.st.log ∧
      r.status = EXIT_SUCCESS) := by
  refine ⟨⟨_, rfl, ?_, ?_, ?_⟩, ⟨_, rfl, ?_, ?_, ?_⟩⟩ <;> decide

/-- C8, the code at the failing input: when the first read fails and the
operator's input is at its end, the run closes the output file and ends with
the input handle still open. -/
theorem C8_input_left_open :
    ∃ r, main (deadEnv exampleSrc) ["p", "in", "out", "4"] [] 1 = some r ∧
      r.why = Exit.noUserInput ∧ r.st.fo = false ∧ r.st.fi = some 0 ∧
      Event.fcloseIn ∉ r.st.log := by
  refine ⟨_, rfl, ?_, ?_, ?_, ?_⟩ <;> decide

/-- C10: two invocations that agree on the output path, the chunk size and
the start offset, each with `end_offset` absent (or `0`) or greater than the
start offset, run identically in the same world on the same operator input:
same result, so same exit status, same destination content and same sequence
of recorded operations.  The value of `end_offset` is not consulted by the
loop. -/
theorem C10_end_offset_ignored (env : Env) (argv1 argv2 : List String)
    (stdin : List Char) (fuel : Nat)
    (hlen1 : ARGS_MIN ≤ argv1.length) (hlen2 : ARGS_MIN ≤ argv2.length)
    (hout : argv1.getD ARG_FILE_OUTPUT "" = argv2.getD ARG_FILE_OUTPUT "")
    (hchunk : argChunk env argv1 = argChunk env argv2)
    (hstart : argStart env argv1 = argStart env argv2)
    (hend1 : argEnd env argv1 = 0 ∨ argStart env argv1 < argEnd env argv1)
    (hend2 : argEnd env argv2 = 0 ∨ argStart env argv2 < argEnd env argv2) :
    main env argv1 stdin fuel = main env argv2 stdin fuel := by
  have hz : argv1.length > ARG_CHUNK_SIZE ∧ argChunk env argv1 = 0 ↔
      argv2.length > ARG_CHUNK_SIZE ∧ argChunk env argv2 = 0 := by
    constructor
    · rintro ⟨h, h0⟩
      refine ⟨?_, hchunk ▸ h0⟩
      by_contra hn
      have h2 : argChunk env argv2 = CHUNK_SIZE_DEFAULT := by
        unfold argChunk; rw [if_neg hn]
      rw [← hchunk, h0] at h2
      exact absurd h2 (by decide)
    · rintro ⟨h, h0⟩
      refine ⟨?_, hchunk.symm ▸ h0⟩
      by_contra hn
      have h1 : argChunk env argv1 = CHUNK_SIZE_DEFAULT := by
        unfold argChunk; rw [if_neg hn]
      rw [hchunk, h0] at h1
      exact absurd h1 (by decide)
  have hn1 : ¬ (argEnd env argv1 ≠ 0 ∧ argStart env argv1 ≥ argEnd env argv1) := by
    rintro ⟨h0, hge⟩
    rcases hend1 with h | h
    · exact h0 h
    · omega
  have hn2 : ¬ (argEnd env argv2 ≠ 0 ∧ argStart env argv2 ≥ argEnd env argv2) := by
    rintro ⟨h0, hge⟩
    rcases hend2 with h | h
    · exact h0 h
    · omega
  have hl1 : ¬ argv1.length < ARGS_MIN := Nat.not_lt.mpr hlen1
  have hl2 : ¬ argv2.length < ARGS_MIN := Nat.not_lt.mpr hlen2
  unfold main
  rw [if_neg hl1, if_neg hl2, hout, if_neg hn1, if_neg hn2, hchunk, hstart]
  by_cases hp : strlen (argv2.getD ARG_FILE_OUTPUT "") > env.PATH_MAX
  · rw [if_pos hp, if_pos hp]
  · rw [if_neg hp, if_neg hp]
    by_cases hc : argv2.length > ARG_CHUNK_SIZE ∧ argChunk env argv2 = 0
    · have hc1 := hz.2 hc
      rw [hchunk] at hc1
      rw [if_pos hc, if_pos hc1]
    · have hc1 : ¬ (argv1.length > ARG_CHUNK_SIZE ∧ argChunk env argv2 = 0) := by
        intro h
        exact hc (hz.1 (by rw [hchunk]; exact h))
      rw [if_neg hc, if_neg hc1]

/-- C10, witness: with `end_offset = 5` the nine bytes of the input are
copied exactly as without `end_offset`. -/
theorem C10_end_offset_ignored_witness :
    main (goodEnv exampleSrc) ["p", "in", "out", "4", "0", "5"] [] 3 =
      main (goodEnv exampleSrc) ["p", "in", "out", "4"] [] 3 ∧
    ∃ r, main (goodEnv exampleSrc) ["p", "in", "out", "4", "0", "5"] [] 3 = some r ∧
      r.st.dst = exampleSrc :=
  ⟨C10_end_offset_ignored (goodEnv exampleSrc) ["p", "in", "out", "4", "0", "5"]
    ["p", "in", "out", "4"] [] 3 (by decide) (by decide) (by decide) (by decide)
    (by decide) (by decide) (by decide), _, rfl, rfl⟩

end ReadBadFlash
